import Mathlib

/-!
Verification of the `system_settings` persistence model
(`src/backend/app/models/system_settings.py`).

The source file declares the SQLAlchemy model `SystemSettings` for the
table `system_settings` — columns `id` (integer primary key), `key`
(`String(100)`, unique, non-null, indexed), `value` (`Text`, nullable),
`description` (`Text`, nullable), `updated_at` (timestamp, server default
now, refreshed on update) — and a `__repr__` method.  The CRUD operations
(`create`, `getByKey`, `update`, `listAll`) and the error kinds
(`DuplicateKeyError`, `NotFoundError`, `ValidationError`) are not present
in the source; they are modelled from the specification.

Timestamps are modelled by a `Nat` logical clock carried by the store and
advanced by every mutating operation; "now" is the clock value at the time
of the call.
-/

/-- A row of the `system_settings` table, following the columns of the
`SystemSettings` SQLAlchemy model: `id` integer primary key, `key` a
non-null string (the `String(100)` bound is enforced by `create`),
`value` and `description` nullable text, `updated_at` a timestamp. -/
structure SystemSettings where
  id : Nat
  key : String
  value : Option String
  description : Option String
  updated_at : Nat
deriving Repr, DecidableEq

/-- The record store: the persisted rows, the next auto-generated primary
key, and the logical clock supplying "now". -/
structure Store where
  records : List SystemSettings
  nextId : Nat
  clock : Nat
deriving Repr, DecidableEq

/-- Modelled from the spec: the two failure kinds of the store plus the
validation failure (`DuplicateKeyError`, `NotFoundError`,
`ValidationError`); none is defined in the source. -/
inductive SettingsError where
  | DuplicateKeyError
  | NotFoundError
  | ValidationError
deriving Repr, DecidableEq

/-- The empty store: no rows, primary keys start at 1, clock starts at 1. -/
def Store.empty : Store := { records := [], nextId := 1, clock := 1 }

/-- Modelled from the spec: `getByKey(key)` returns the matching
`SettingsRecord` or a "not found" result, with no side effects. -/
def getByKey (s : Store) (k : String) : Option SystemSettings :=
  s.records.find? (fun r => r.key == k)

/-- Modelled from the spec: `create(key, value, description)` makes a new
record with generated `id` and `updated_at = now`.  Fails with
`ValidationError` if `key` is null, empty, or exceeds 100 characters
(the `String(100)` column bound); fails with `DuplicateKeyError` if `key`
already exists (the `unique=True` column constraint). -/
def create (s : Store) (key : Option String) (v d : Option String) :
    Except SettingsError (Store × SystemSettings) :=
  match key with
  | none => .error .ValidationError
  | some k =>
    if k.length = 0 ∨ 100 < k.length then .error .ValidationError
    else if (getByKey s k).isSome then .error .DuplicateKeyError
    else
      let r : SystemSettings := ⟨s.nextId, k, v, d, s.clock⟩
      .ok (⟨s.records ++ [r], s.nextId + 1, s.clock + 1⟩, r)

/-- Modelled from the spec: `update(key, newValue, newDescription)` sets
`value`/`description` on the matching record and refreshes `updated_at`
to now; fails with `NotFoundError` if no record matches `key`. -/
def update (s : Store) (k : String) (nv nd : Option String) :
    Except SettingsError (Store × SystemSettings) :=
  match getByKey s k with
  | none => .error .NotFoundError
  | some r0 =>
    .ok (⟨s.records.map (fun x =>
            if x.key == k then ⟨x.id, x.key, nv, nd, s.clock⟩ else x),
          s.nextId, s.clock + 1⟩,
         ⟨r0.id, r0.key, nv, nd, s.clock⟩)

/-- Modelled from the spec: `listAll()` produces all records. -/
def listAll (s : Store) : List SystemSettings := s.records

/-- Python's `str` conversion applied to a nullable text column, as it
appears inside the f-string of `__repr__`: `None` for a null value. -/
def pyStr : Option String → String
  | none => "None"
  | some v => v

/-- `SystemSettings.__repr__` from the source:
`f"<SystemSettings(key={self.key}, value={self.value})>"`. -/
def SystemSettings.reprString (r : SystemSettings) : String :=
  "<SystemSettings(key=" ++ r.key ++ ", value=" ++ pyStr r.value ++ ")>"

/-- Look a record up by primary key. -/
def findById (s : Store) (i : Nat) : Option SystemSettings :=
  s.records.find? (fun r => r.id == i)

/-- The `unique=True` constraint on `key`: no two rows share a key. -/
def keysUnique (s : Store) : Prop :=
  s.records.Pairwise (fun a b => a.key ≠ b.key)

/-- The store invariant: keys are pairwise distinct, ids are pairwise
distinct and below `nextId`, every `updated_at` is before the current
clock, and every stored key satisfies the `String(100)` bound. -/
def storeInv (s : Store) : Prop :=
  s.records.Pairwise (fun a b => a.key ≠ b.key) ∧
  s.records.Pairwise (fun a b => a.id ≠ b.id) ∧
  (∀ r ∈ s.records, r.id < s.nextId) ∧
  (∀ r ∈ s.records, r.updated_at < s.clock) ∧
  (∀ r ∈ s.records, r.key ≠ "" ∧ r.key.length ≤ 100)

/-- One mutating operation of the store (reads do not change state). -/
inductive Step : Store → Store → Prop where
  | createOk (s s' : Store) (key v d : Option String) (r : SystemSettings) :
      create s key v d = .ok (s', r) → Step s s'
  | updateOk (s s' : Store) (k : String) (nv nd : Option String)
      (r : SystemSettings) :
      update s k nv nd = .ok (s', r) → Step s s'

/-- Any finite sequence of mutating operations. -/
inductive Steps : Store → Store → Prop where
  | refl (s : Store) : Steps s s
  | tail {s s' s'' : Store} : Steps s s' → Step s' s'' → Steps s s''

/-- A store state reachable from the empty store. -/
def Reachable (s : Store) : Prop := Steps Store.empty s

/-- The record produced by the first `create` on the empty store. -/
def demoRec : SystemSettings := ⟨1, "k", some "v", none, 1⟩

/-- The store after one `create` on the empty store. -/
def demoStore : Store := ⟨[demoRec], 2, 2⟩

instance {ε α : Type} [DecidableEq ε] [DecidableEq α] :
    DecidableEq (Except ε α) := fun a b =>
  match a, b with
  | .ok x, .ok y =>
    if h : x = y then .isTrue (by rw [h]) else
      .isFalse (by intro hc; cases hc; exact h rfl)
  | .error x, .error y =>
    if h : x = y then .isTrue (by rw [h]) else
      .isFalse (by intro hc; cases hc; exact h rfl)
  | .ok _, .error _ => .isFalse (by intro hc; cases hc)
  | .error _, .ok _ => .isFalse (by intro hc; cases hc)

example : create Store.empty (some "k") (some "v") none =
    .ok (⟨[⟨1, "k", some "v", none, 1⟩], 2, 2⟩, ⟨1, "k", some "v", none, 1⟩) := by
  decide

example : getByKey ⟨[⟨1, "k", some "v", none, 1⟩], 2, 2⟩ "k" =
    some ⟨1, "k", some "v", none, 1⟩ := by decide

/-! ### Elimination lemmas for the operations -/

lemma length_eq_zero_str {k : String} : k.length = 0 ↔ k = "" := by
  cases k with
  | mk l =>
    constructor
    · intro h
      exact congrArg String.mk (List.length_eq_zero.mp h)
    · intro h
      rw [h]
      rfl

lemma create_ok_elim {s : Store} {key v d : Option String} {s' : Store}
    {r : SystemSettings} (h : create s key v d = .ok (s', r)) :
    ∃ k, key = some k ∧ k ≠ "" ∧ k.length ≤ 100 ∧ getByKey s k = none ∧
      r = ⟨s.nextId, k, v, d, s.clock⟩ ∧
      s' = ⟨s.records ++ [r], s.nextId + 1, s.clock + 1⟩ := by
  cases key with
  | none => simp [create] at h
  | some k =>
    by_cases h1 : k.length = 0 ∨ 100 < k.length
    · simp [create, h1] at h
    · by_cases h2 : (getByKey s k).isSome
      · simp [create, h1, h2] at h
      · simp only [create] at h
        rw [if_neg h1, if_neg h2, Except.ok.injEq, Prod.mk.injEq] at h
        obtain ⟨hs, hr⟩ := h
        push_neg at h1
        refine ⟨k, rfl, ?_, h1.2, Option.not_isSome_iff_eq_none.mp h2, hr.symm, ?_⟩
        · intro hk
          exact h1.1 (length_eq_zero_str.mpr hk)
        · rw [← hs, ← hr]

lemma create_ok_intro {s : Store} {k : String} (v d : Option String)
    (hk1 : k ≠ "") (hk2 : k.length ≤ 100) (hfree : getByKey s k = none) :
    create s (some k) v d =
      .ok (⟨s.records ++ [⟨s.nextId, k, v, d, s.clock⟩], s.nextId + 1, s.clock + 1⟩,
           ⟨s.nextId, k, v, d, s.clock⟩) := by
  have h1 : ¬(k.length = 0 ∨ 100 < k.length) := by
    push_neg
    exact ⟨fun h => hk1 (length_eq_zero_str.mp h), hk2⟩
  have h2 : ¬(getByKey s k).isSome := by
    rw [hfree]
    simp
  simp [create, if_neg h1, if_neg h2]

lemma update_ok_elim {s : Store} {k : String} {nv nd : Option String}
    {s' : Store} {r : SystemSettings} (h : update s k nv nd = .ok (s', r)) :
    ∃ r0, getByKey s k = some r0 ∧
      r = ⟨r0.id, r0.key, nv, nd, s.clock⟩ ∧
      s' = ⟨s.records.map (fun x =>
              if x.key == k then ⟨x.id, x.key, nv, nd, s.clock⟩ else x),
            s.nextId, s.clock + 1⟩ := by
  cases hg : getByKey s k with
  | none => simp [update, hg] at h
  | some r0 =>
    simp only [update, hg] at h
    rw [Except.ok.injEq, Prod.mk.injEq] at h
    obtain ⟨hs, hr⟩ := h
    exact ⟨r0, rfl, hr.symm, hs.symm⟩

lemma update_ok_intro {s : Store} {k : String} (nv nd : Option String)
    {r0 : SystemSettings} (hg : getByKey s k = some r0) :
    update s k nv nd =
      .ok (⟨s.records.map (fun x =>
              if x.key == k then ⟨x.id, x.key, nv, nd, s.clock⟩ else x),
            s.nextId, s.clock + 1⟩,
           ⟨r0.id, r0.key, nv, nd, s.clock⟩) := by
  simp [update, hg]

lemma getByKey_mem {s : Store} {k : String} {r : SystemSettings}
    (h : getByKey s k = some r) : r ∈ s.records ∧ r.key = k := by
  have hm := List.mem_of_find?_eq_some h
  have hp := List.find?_some h
  exact ⟨hm, by simpa using hp⟩

lemma getByKey_none {s : Store} {k : String} (h : getByKey s k = none) :
    ∀ x ∈ s.records, x.key ≠ k := by
  intro x hx
  have := List.find?_eq_none.mp h x hx
  simpa using this

/-! ### The store invariant is preserved by every operation -/

lemma storeInv_empty : storeInv Store.empty := by
  refine ⟨?_, ?_, ?_, ?_, ?_⟩ <;> simp [Store.empty]

lemma storeInv_create {s : Store} {key v d : Option String} {s' : Store}
    {r : SystemSettings} (hi : storeInv s)
    (h : create s key v d = .ok (s', r)) : storeInv s' := by
  obtain ⟨k, -, hk1, hk2, hfree, hr, hs⟩ := create_ok_elim h
  obtain ⟨i1, i2, i3, i4, i5⟩ := hi
  have hnew : ∀ x ∈ s.records, x.key ≠ k := getByKey_none hfree
  subst hs hr
  refine ⟨?_, ?_, ?_, ?_, ?_⟩
  · rw [List.pairwise_append]
    refine ⟨i1, by simp, ?_⟩
    intro a ha b hb
    simp only [List.mem_singleton] at hb
    subst hb
    exact hnew a ha
  · rw [List.pairwise_append]
    refine ⟨i2, by simp, ?_⟩
    intro a ha b hb
    simp only [List.mem_singleton] at hb
    subst hb
    exact Nat.ne_of_lt (i3 a ha)
  · intro x hx
    rcases List.mem_append.mp hx with hx | hx
    · exact Nat.lt_succ_of_lt (i3 x hx)
    · simp only [List.mem_singleton] at hx
      subst hx
      exact Nat.lt_succ_self _
  · intro x hx
    rcases List.mem_append.mp hx with hx | hx
    · exact Nat.lt_succ_of_lt (i4 x hx)
    · simp only [List.mem_singleton] at hx
      subst hx
      exact Nat.lt_succ_self _
  · intro x hx
    rcases List.mem_append.mp hx with hx | hx
    · exact i5 x hx
    · simp only [List.mem_singleton] at hx
      subst hx
      exact ⟨hk1, hk2⟩

lemma storeInv_update {s : Store} {k : String} {nv nd : Option String}
    {s' : Store} {r : SystemSettings} (hi : storeInv s)
    (h : update s k nv nd = .ok (s', r)) : storeInv s' := by
  obtain ⟨r0, -, -, hs⟩ := update_ok_elim h
  obtain ⟨i1, i2, i3, i4, i5⟩ := hi
  subst hs
  set f : SystemSettings → SystemSettings := fun x =>
    if x.key == k then ⟨x.id, x.key, nv, nd, s.clock⟩ else x with hf
  have hkey : ∀ x, (f x).key = x.key := by
    intro x
    by_cases hx : x.key = k <;> simp [hf, hx]
  have hid : ∀ x, (f x).id = x.id := by
    intro x
    by_cases hx : x.key = k <;> simp [hf, hx]
  refine ⟨?_, ?_, ?_, ?_, ?_⟩
  · exact List.Pairwise.map f (fun a b hab => by rw [hkey, hkey]; exact hab) i1
  · exact List.Pairwise.map f (fun a b hab => by rw [hid, hid]; exact hab) i2
  · intro x hx
    obtain ⟨y, hy, hxy⟩ := List.mem_map.mp hx
    rw [← hxy, hid]
    exact i3 y hy
  · intro x hx
    obtain ⟨y, hy, hxy⟩ := List.mem_map.mp hx
    rw [← hxy]
    by_cases hyk : y.key = k
    · simp only [hf, hyk, beq_self_eq_true, if_true]
      exact Nat.lt_succ_self _
    · have : (y.key == k) = false := beq_eq_false_iff_ne.mpr hyk
      simp only [hf, this, Bool.false_eq_true, if_false]
      exact Nat.lt_succ_of_lt (i4 y hy)
  · intro x hx
    obtain ⟨y, hy, hxy⟩ := List.mem_map.mp hx
    rw [← hxy, hkey]
    exact i5 y hy

lemma storeInv_step {s s' : Store} (hi : storeInv s) (h : Step s s') :
    storeInv s' := by
  cases h with
  | createOk key v d r hc => exact storeInv_create hi hc
  | updateOk k nv nd r hu => exact storeInv_update hi hu

lemma storeInv_steps {s s' : Store} (hi : storeInv s) (h : Steps s s') :
    storeInv s' := by
  induction h with
  | refl => exact hi
  | tail _ hstep ih => exact storeInv_step ih hstep

lemma reachable_storeInv {s : Store} (h : Reachable s) : storeInv s :=
  storeInv_steps storeInv_empty h

/-! ### Clock monotonicity -/

lemma clock_step {s s' : Store} (h : Step s s') : s.clock < s'.clock := by
  cases h with
  | createOk key v d r hc =>
    obtain ⟨k, -, -, -, -, -, hs⟩ := create_ok_elim hc
    rw [hs]
    exact Nat.lt_succ_self _
  | updateOk k nv nd r hu =>
    obtain ⟨r0, -, -, hs⟩ := update_ok_elim hu
    rw [hs]
    exact Nat.lt_succ_self _

lemma clock_steps {s s' : Store} (h : Steps s s') : s.clock ≤ s'.clock := by
  induction h with
  | refl => exact Nat.le_refl _
  | tail _ hstep ih => exact Nat.le_of_lt (Nat.lt_of_le_of_lt ih (clock_step hstep))

/-! ### Tracking a record through operations -/

lemma find?_append_left {l₁ l₂ : List SystemSettings}
    {p : SystemSettings → Bool} {a : SystemSettings} (h : l₁.find? p = some a) :
    (l₁ ++ l₂).find? p = some a := by
  rw [List.find?_append, h]
  rfl

lemma find?_append_none {l₁ l₂ : List SystemSettings}
    {p : SystemSettings → Bool} (h : l₁.find? p = none) :
    (l₁ ++ l₂).find? p = l₂.find? p := by
  rw [List.find?_append, h]
  rfl

lemma find?_map_pred {l : List SystemSettings}
    {f : SystemSettings → SystemSettings} {p : SystemSettings → Bool}
    (hp : ∀ x, p (f x) = p x) :
    (l.map f).find? p = (l.find? p).map f := by
  rw [List.find?_map]
  have : p ∘ f = p := funext hp
  rw [this]

/-- After a successful `create`, the new key maps to the new record. -/
lemma getByKey_after_create {s : Store} {k : String} {v d : Option String}
    {s' : Store} {r : SystemSettings}
    (h : create s (some k) v d = .ok (s', r)) : getByKey s' k = some r := by
  obtain ⟨k', hk', -, -, hfree, hr, hs⟩ := create_ok_elim h
  obtain rfl : k = k' := by injection hk'
  subst hs
  show (s.records ++ [r]).find? (fun x => x.key == k) = some r
  rw [find?_append_none hfree]
  have : r.key = k := by rw [hr]
  simp [List.find?, this]

/-- After a successful `update` of key `k`, `k` maps to the returned record. -/
lemma getByKey_after_update {s : Store} {k : String} {nv nd : Option String}
    {s' : Store} {r : SystemSettings}
    (h : update s k nv nd = .ok (s', r)) : getByKey s' k = some r := by
  obtain ⟨r0, hg, hr, hs⟩ := update_ok_elim h
  subst hs
  have hk0 : r0.key = k := (getByKey_mem hg).2
  show (s.records.map (fun x =>
      if x.key == k then ⟨x.id, x.key, nv, nd, s.clock⟩ else x)).find?
      (fun x => x.key == k) = some r
  rw [find?_map_pred (fun x => by by_cases hx : x.key = k <;> simp [hx])]
  rw [show s.records.find? (fun x => x.key == k) = some r0 from hg]
  show some (if r0.key == k then
      (⟨r0.id, r0.key, nv, nd, s.clock⟩ : SystemSettings) else r0) = some r
  rw [hr]
  simp [hk0]

/-- A single step never deletes a record, never changes its `id` or `key`,
and never decreases its `updated_at`. -/
lemma step_findById {s s' : Store} (hi : storeInv s) (h : Step s s')
    {i : Nat} {t : SystemSettings} (hf : findById s i = some t) :
    ∃ t', findById s' i = some t' ∧ t'.id = t.id ∧ t'.key = t.key ∧
      t.updated_at ≤ t'.updated_at := by
  cases h with
  | createOk key v d r hc =>
    obtain ⟨k, -, -, -, -, -, hs⟩ := create_ok_elim hc
    subst hs
    exact ⟨t, find?_append_left hf, rfl, rfl, Nat.le_refl _⟩
  | updateOk k nv nd r hu =>
    obtain ⟨r0, hg, -, hs⟩ := update_ok_elim hu
    subst hs
    have hmem := List.mem_of_find?_eq_some hf
    have hclk : t.updated_at < s.clock := hi.2.2.2.1 t hmem
    refine ⟨if t.key == k then ⟨t.id, t.key, nv, nd, s.clock⟩ else t, ?_, ?_, ?_, ?_⟩
    · show (s.records.map (fun x =>
          if x.key == k then ⟨x.id, x.key, nv, nd, s.clock⟩ else x)).find?
          (fun x => x.id == i) =
          some (if t.key == k then ⟨t.id, t.key, nv, nd, s.clock⟩ else t)
      rw [find?_map_pred (fun x => by by_cases hx : x.key = k <;> simp [hx])]
      rw [show s.records.find? (fun x => x.id == i) = some t from hf]
      rfl
    · by_cases hx : t.key = k <;> simp [hx]
    · by_cases hx : t.key = k <;> simp [hx]
    · by_cases hx : t.key = k <;> simp [hx, Nat.le_of_lt hclk]

/-- Records persist across any sequence of operations, keeping their `id`
and `key`, with `updated_at` non-decreasing. -/
lemma steps_findById {s s' : Store} (hi : storeInv s) (h : Steps s s')
    {i : Nat} {t : SystemSettings} (hf : findById s i = some t) :
    ∃ t', findById s' i = some t' ∧ t'.id = t.id ∧ t'.key = t.key ∧
      t.updated_at ≤ t'.updated_at := by
  induction h with
  | refl => exact ⟨t, hf, rfl, rfl, Nat.le_refl _⟩
  | tail hsteps hstep ih =>
    obtain ⟨t1, hf1, hid1, hkey1, hle1⟩ := ih
    obtain ⟨t2, hf2, hid2, hkey2, hle2⟩ :=
      step_findById (storeInv_steps hi hsteps) hstep hf1
    exact ⟨t2, hf2, by rw [hid2, hid1], by rw [hkey2, hkey1],
           Nat.le_trans hle1 hle2⟩

/-! ### Concrete instances used by the witnesses -/

lemma demo_create :
    create Store.empty (some "k") (some "v") none = .ok (demoStore, demoRec) := by
  decide

lemma demo_reachable : Reachable demoStore :=
  Steps.tail (Steps.refl _)
    (Step.createOk Store.empty demoStore (some "k") (some "v") none demoRec
      demo_create)

/-! ### The claims -/

/-- C1: for every valid input `(key, value, description)` and every state
in which `key` does not already exist, `create(key, value, description)`
followed by `getByKey(key)` returns a record whose `value` equals `value`,
whose `description` equals `description`, and whose `id` and `updated_at`
are set (to the generated id and the creation time, never null). -/
theorem create_then_getByKey (s : Store) (k : String) (v d : Option String)
    (hk1 : k ≠ "") (hk2 : k.length ≤ 100) (hfree : getByKey s k = none) :
    ∃ s' r, create s (some k) v d = .ok (s', r) ∧
      getByKey s' k = some r ∧ r.value = v ∧ r.description = d ∧
      r.id = s.nextId ∧ r.updated_at = s.clock := by
  exact ⟨_, _, create_ok_intro v d hk1 hk2 hfree,
         getByKey_after_create (create_ok_intro v d hk1 hk2 hfree),
         rfl, rfl, rfl, rfl⟩

/-- Witness for C1 at the round-trip example
`create(key="transcription.max_retries", value="5")`. -/
theorem create_then_getByKey_witness :
    ∃ s' r, create Store.empty (some "transcription.max_retries") (some "5")
        none = .ok (s', r) ∧
      getByKey s' "transcription.max_retries" = some r ∧
      r.value = some "5" ∧ r.description = none ∧
      r.id = Store.empty.nextId ∧ r.updated_at = Store.empty.clock :=
  create_then_getByKey Store.empty "transcription.max_retries" (some "5")
    none (by decide) (by decide) rfl

/-- C2: in every reachable state the keys are pairwise distinct, every
mutating operation preserves key uniqueness, `create` on an existing key
fails with `DuplicateKeyError` (a failed call returns only the error, so
the record set is untouched), and of two creates with the same key the
first succeeds and the second fails with `DuplicateKeyError`. -/
theorem key_uniqueness (s : Store) (h : Reachable s) :
    keysUnique s ∧
    (∀ s', Step s s' → keysUnique s') ∧
    (∀ k v d, (getByKey s k).isSome →
      create s (some k) v d = .error .DuplicateKeyError) ∧
    (∀ k v d s1 r, create s (some k) v d = .ok (s1, r) →
      ∀ v2 d2, create s1 (some k) v2 d2 = .error .DuplicateKeyError) := by
  have hi := reachable_storeInv h
  refine ⟨hi.1, ?_, ?_, ?_⟩
  · intro s' hstep
    exact (storeInv_step hi hstep).1
  · intro k v d hsome
    obtain ⟨r0, hr0⟩ := Option.isSome_iff_exists.mp hsome
    have hm := getByKey_mem hr0
    have hv := hi.2.2.2.2 r0 hm.1
    have h1 : ¬(k.length = 0 ∨ 100 < k.length) := by
      push_neg
      rw [← hm.2]
      exact ⟨fun hh => hv.1 (length_eq_zero_str.mp hh), hv.2⟩
    simp [create, if_neg h1, hsome]
  · intro k v d s1 r hc v2 d2
    have hg : getByKey s1 k = some r := getByKey_after_create hc
    obtain ⟨k', hk', hk1, hk2, -, -, -⟩ := create_ok_elim hc
    obtain rfl : k = k' := by injection hk'
    have h1 : ¬(k.length = 0 ∨ 100 < k.length) := by
      push_neg
      exact ⟨fun hh => hk1 (length_eq_zero_str.mp hh), hk2⟩
    have h2 : (getByKey s1 k).isSome := by
      rw [hg]
      rfl
    simp [create, if_neg h1, h2]

/-- Witness for C2 at a concrete reachable one-record store. -/
theorem key_uniqueness_witness :
    keysUnique demoStore ∧
    create demoStore (some "k") (some "w") (some "d") =
      .error .DuplicateKeyError :=
  ⟨(key_uniqueness demoStore demo_reachable).1,
   (key_uniqueness demoStore demo_reachable).2.2.1 "k" (some "w") (some "d")
     (by decide)⟩

/-- C3: `create` fails with `ValidationError` exactly when the key is
null, empty, or longer than 100 characters; in particular a key of
exactly 101 characters is rejected with `ValidationError` and a key of
exactly 100 characters (not already present) is accepted. -/
theorem create_validation (s : Store) (v d : Option String) :
    (∀ key, create s key v d = .error .ValidationError ↔
      key = none ∨ key = some "" ∨ ∃ k, key = some k ∧ 100 < k.length) ∧
    (∀ k : String, k.length = 101 →
      create s (some k) v d = .error .ValidationError) ∧
    (∀ k : String, k.length = 100 → getByKey s k = none →
      ∃ s' r, create s (some k) v d = .ok (s', r)) := by
  refine ⟨fun key => ⟨?_, ?_⟩, ?_, ?_⟩
  · intro h
    cases key with
    | none => exact Or.inl rfl
    | some k =>
      by_cases h1 : k.length = 0 ∨ 100 < k.length
      · rcases h1 with h1 | h1
        · exact Or.inr (Or.inl (by rw [length_eq_zero_str.mp h1]))
        · exact Or.inr (Or.inr ⟨k, rfl, h1⟩)
      · by_cases h2 : (getByKey s k).isSome
        · simp [create, if_neg h1, h2] at h
        · simp [create, if_neg h1, h2] at h
  · intro h
    rcases h with h | h | ⟨k, hk, hlen⟩
    · rw [h]
      rfl
    · rw [h]
      simp [create]
    · rw [hk]
      simp [create, Or.inr hlen]
  · intro k hlen
    have h1 : k.length = 0 ∨ 100 < k.length := Or.inr (by omega)
    simp [create, h1]
  · intro k hlen hfree
    refine ⟨_, _, create_ok_intro v d ?_ (by omega) hfree⟩
    intro hk
    rw [hk] at hlen
    simp at hlen

/-- Witness for C3: the boundary keys of 101 and 100 characters. -/
theorem create_validation_witness :
    create Store.empty (some (String.mk (List.replicate 101 'a'))) (some "x")
      none = .error .ValidationError ∧
    ∃ s' r, create Store.empty (some (String.mk (List.replicate 100 'a')))
      (some "x") none = .ok (s', r) :=
  ⟨(create_validation Store.empty (some "x") none).2.1 _
     (by rw [String.length_mk, List.length_replicate]),
   (create_validation Store.empty (some "x") none).2.2 _
     (by rw [String.length_mk, List.length_replicate]) rfl⟩

/-- C4: when a record with the given key exists, `update` succeeds, sets
`value` and `description` to the new values, stamps `updated_at` with the
current time, leaves the record's `id` and `key` unchanged, and touches no
other record (records with other keys are carried over unchanged and the
row count is preserved). -/
theorem update_found (s : Store) (k : String) (nv nd : Option String)
    (r0 : SystemSettings) (h : getByKey s k = some r0) :
    ∃ s' r', update s k nv nd = .ok (s', r') ∧
      r'.value = nv ∧ r'.description = nd ∧ r'.updated_at = s.clock ∧
      r'.id = r0.id ∧ r'.key = r0.key ∧
      getByKey s' k = some r' ∧
      s'.records.length = s.records.length ∧
      (∀ x ∈ s.records, x.key ≠ k → x ∈ s'.records) ∧
      (∀ x ∈ s'.records, x.key ≠ k → x ∈ s.records) := by
  refine ⟨_, _, update_ok_intro nv nd h, rfl, rfl, rfl, rfl, rfl,
          getByKey_after_update (update_ok_intro nv nd h), ?_, ?_, ?_⟩
  · simp
  · intro x hx hxk
    refine List.mem_map.mpr ⟨x, hx, ?_⟩
    simp [hxk]
  · intro x hx hxk
    obtain ⟨y, hy, hxy⟩ := List.mem_map.mp hx
    by_cases hyk : y.key = k
    · exfalso
      apply hxk
      rw [← hxy]
      simp [hyk]
    · rw [← hxy]
      simpa [hyk] using hy

/-- Witness for C4 at the concrete one-record store. -/
theorem update_found_witness :
    ∃ s' r', update demoStore "k" (some "v2") (some "d2") = .ok (s', r') ∧
      r'.value = some "v2" ∧ r'.description = some "d2" ∧
      r'.updated_at = demoStore.clock ∧
      r'.id = demoRec.id ∧ r'.key = demoRec.key ∧
      getByKey s' "k" = some r' ∧
      s'.records.length = demoStore.records.length ∧
      (∀ x ∈ demoStore.records, x.key ≠ "k" → x ∈ s'.records) ∧
      (∀ x ∈ s'.records, x.key ≠ "k" → x ∈ demoStore.records) :=
  update_found demoStore "k" (some "v2") (some "d2") demoRec (by decide)

/-- C5: when no record with the given key exists, `update` fails with
`NotFoundError`; the failed call returns only the error (the record set it
was given is untouched and in particular no record is created). -/
theorem update_not_found (s : Store) (k : String) (nv nd : Option String)
    (h : getByKey s k = none) :
    update s k nv nd = .error .NotFoundError := by
  simp [update, h]

/-- Witness for C5 on the empty store. -/
theorem update_not_found_witness :
    update Store.empty "transcription.max_retries" (some "5") none =
      .error .NotFoundError :=
  update_not_found Store.empty "transcription.max_retries" (some "5") none rfl

/-- C6: for a record identified by a fixed `id`, `updated_at` never
decreases across any sequence of operations from a reachable state, and an
update performed any time after the record's creation stamps an
`updated_at` strictly later than the creation timestamp. -/
theorem updated_at_monotone (s : Store) (h : Reachable s) :
    (∀ s', Steps s s' → ∀ i t t', findById s i = some t →
      findById s' i = some t' → t.updated_at ≤ t'.updated_at) ∧
    (∀ k v d s1 r, create s (some k) v d = .ok (s1, r) →
      ∀ s2, Steps s1 s2 → ∀ nv nd s3 r', update s2 k nv nd = .ok (s3, r') →
        r.updated_at < r'.updated_at) := by
  have hi := reachable_storeInv h
  constructor
  · intro s' hsteps i t t' hft hft'
    obtain ⟨t2, hf2, -, -, hle⟩ := steps_findById hi hsteps hft
    rw [hft'] at hf2
    injection hf2 with he
    rw [he]
    exact hle
  · intro k v d s1 r hc s2 hsteps nv nd s3 r' hu
    obtain ⟨k', -, -, -, -, hr, hs1⟩ := create_ok_elim hc
    obtain ⟨r0, -, hr', -⟩ := update_ok_elim hu
    have h1 : r.updated_at = s.clock := by rw [hr]
    have h2 : r'.updated_at = s2.clock := by rw [hr']
    have h3 : s1.clock = s.clock + 1 := by rw [hs1]
    have h4 : s1.clock ≤ s2.clock := clock_steps hsteps
    omega

/-- Witness for C6: create then immediately update on the empty store. -/
theorem updated_at_monotone_witness :
    demoRec.updated_at <
      (⟨1, "k", some "v2", none, 2⟩ : SystemSettings).updated_at :=
  (updated_at_monotone Store.empty (Steps.refl _)).2 "k" (some "v") none
    demoStore demoRec demo_create demoStore (Steps.refl _) (some "v2") none
    ⟨[⟨1, "k", some "v2", none, 2⟩], 2, 3⟩ ⟨1, "k", some "v2", none, 2⟩
    (by decide)

/-- C7: a record's `id` is assigned exactly once, at creation — it is the
generated `nextId`, not previously in use — and no subsequent operation
changes it: across every sequence of operations the record stays
retrievable under that same `id` with its `id` (and `key`) intact
(`getByKey` and `listAll` are pure reads and do not modify the store). -/
theorem id_immutable (s : Store) (h : Reachable s) :
    (∀ k v d s1 r, create s (some k) v d = .ok (s1, r) →
      r.id = s.nextId ∧ findById s r.id = none ∧ findById s1 r.id = some r) ∧
    (∀ s', Steps s s' → ∀ i t, findById s i = some t →
      ∃ t', findById s' i = some t' ∧ t'.id = t.id ∧ t'.key = t.key) := by
  have hi := reachable_storeInv h
  constructor
  · intro k v d s1 r hc
    obtain ⟨k', -, -, -, -, hr, hs1⟩ := create_ok_elim hc
    have hid : r.id = s.nextId := by rw [hr]
    have hnone : findById s r.id = none := by
      apply List.find?_eq_none.mpr
      intro x hx
      simp only [hid, beq_iff_eq]
      exact Nat.ne_of_lt (hi.2.2.1 x hx)
    refine ⟨hid, hnone, ?_⟩
    have hnone' : s.records.find? (fun x => x.id == r.id) = none := hnone
    rw [hs1]
    show (s.records ++ [r]).find? (fun x => x.id == r.id) = some r
    rw [find?_append_none hnone']
    simp [List.find?_singleton]
  · intro s' hsteps i t hft
    obtain ⟨t', hf', hid', hkey', -⟩ := steps_findById hi hsteps hft
    exact ⟨t', hf', hid', hkey'⟩

/-- Witness for C7: the first create on the empty store assigns id 1. -/
theorem id_immutable_witness :
    demoRec.id = Store.empty.nextId ∧
    findById Store.empty demoRec.id = none ∧
    findById demoStore demoRec.id = some demoRec :=
  (id_immutable Store.empty (Steps.refl _)).1 "k" (some "v") none demoStore
    demoRec demo_create

/-- C9: `__repr__` returns exactly
`<SystemSettings(key=K, value=V)>` where `K` and `V` are the record's
`key` and `value` (a null value prints as `None`), and the output is
determined solely by `key` and `value`: two records agreeing on those
fields have equal output whatever their `id`, `description` and
`updated_at` are. -/
theorem reprString_spec :
    (∀ r : SystemSettings, r.reprString =
      "<SystemSettings(key=" ++ r.key ++ ", value=" ++ pyStr r.value ++
        ")>") ∧
    (∀ r r' : SystemSettings, r.key = r'.key → r.value = r'.value →
      r.reprString = r'.reprString) := by
  refine ⟨fun r => rfl, ?_⟩
  intro r r' h1 h2
  simp [SystemSettings.reprString, h1, h2]

/-- Witness for C9: records differing only in `id`, `description`,
`updated_at` print identically. -/
theorem reprString_spec_witness :
    SystemSettings.reprString ⟨1, "k", some "v", some "d", 1⟩ =
      SystemSettings.reprString ⟨7, "k", some "v", none, 42⟩ :=
  reprString_spec.2 ⟨1, "k", some "v", some "d", 1⟩
    ⟨7, "k", some "v", none, 42⟩ rfl rfl

/-- C10 counterexample: an `update` whose new value and new description
both equal the record's current ones still changes `updated_at` (here
from 1 to 2): the timestamp refresh fires on every update call, not only
when a column value changes. -/
theorem onupdate_noop_update_cex :
    demoRec.value = some "v" ∧ demoRec.description = none ∧
    getByKey demoStore "k" = some demoRec ∧
    update demoStore "k" (some "v") none =
      .ok (⟨[⟨1, "k", some "v", none, 2⟩], 2, 3⟩,
           ⟨1, "k", some "v", none, 2⟩) ∧
    (⟨1, "k", some "v", none, 2⟩ : SystemSettings).updated_at ≠
      demoRec.updated_at := by
  decide

/-- C10 amended: an `update` whose new value and new description equal the
record's current ones still refreshes `updated_at` to the current time —
in a reachable state strictly later than the record's previous stamp. -/
theorem onupdate_always_fires (s : Store) (h : Reachable s) (k : String)
    (r0 : SystemSettings) (hg : getByKey s k = some r0) :
    ∃ s' r', update s k r0.value r0.description = .ok (s', r') ∧
      r'.value = r0.value ∧ r'.description = r0.description ∧
      r'.updated_at = s.clock ∧ r0.updated_at < r'.updated_at := by
  have hi := reachable_storeInv h
  refine ⟨_, _, update_ok_intro r0.value r0.description hg, rfl, rfl, rfl, ?_⟩
  show r0.updated_at < s.clock
  exact hi.2.2.2.1 r0 (getByKey_mem hg).1

/-- Witness for C10's amended statement at the concrete store. -/
theorem onupdate_always_fires_witness :
    ∃ s' r', update demoStore "k" demoRec.value demoRec.description =
        .ok (s', r') ∧
      r'.value = demoRec.value ∧ r'.description = demoRec.description ∧
      r'.updated_at = demoStore.clock ∧
      demoRec.updated_at < r'.updated_at :=
  onupdate_always_fires demoStore demo_reachable "k" demoRec (by decide)
